import Mathlib

/-
Shallow embedding of the Soundsync room session coordinator
(src/server/routes.ts): the in-memory connection registry, the room
broadcaster with dead-connection pruning, the voice presence tracker,
the WebRTC signaling relay, and the debounced room eviction scheduler.

Modelling conventions:
* A live transport socket is identified by a natural number wsId; its
  readyState is supplied to each handler as a snapshot isOpen : Nat -> Bool
  (the handler body runs synchronously, so the readyState it observes is
  fixed for the duration of one handler, as in the single-threaded source).
* The JS Map objects (clients, voiceParticipants, roomCleanupTimers) are
  association lists with unique keys; mapSet updates the first entry with
  the given key in place (JS Map.set keeps insertion order) and appends
  otherwise; mapDel removes the entry.  A JS Set of strings is a duplicate
  free list in insertion order.
* Effects observable outside the state (socket sends, socket closes, the
  setTimeout-delayed broadcast registered by join_room, and the
  console.error call in the cleanup timer catch block) are returned as an
  ordered list of Output values.  Each call to broadcastToRoom additionally
  emits a leading Output.bcast marker, mirroring the per-call console.log
  at the top of the source function; the subsequent Output.sendTo entries
  are the individual deliveries.
* Calls into the persisted store are external: the result of
  storage.getParticipantsByRoomId(...).some(p => p.isActive) is passed in
  as a boolean (hasActive / stillEmpty), and storage.deleteRoom success is
  the boolean deleteOk; a successful deletion is recorded in deletedRooms.
-/

namespace Soundsync

/-- The three WebRTC signaling message kinds relayed verbatim
(voice_offer, voice_answer, voice_ice_candidate). -/
inductive SignalKind where
  | voice_offer
  | voice_answer
  | voice_ice_candidate
deriving DecidableEq, Repr

/-- Inbound WebSocket envelopes consumed by the message switch in
the wss connection handler (src/server/routes.ts:233-390). -/
inductive InMsg where
  | join_room (participantId roomId : String)
  | voice_join (participantId roomId : String)
  | voice_leave (participantId roomId : String)
  | voice_signal (kind : SignalKind) (roomId fromP toP payload : String)
  | voice_participant_muted (participantId roomId : String) (isMuted : Bool)
  | play_sound (soundId participantId roomId : String)
  | leave_room (participantId roomId : String)
deriving DecidableEq, Repr

/-- Outbound message envelopes produced by the coordinator. -/
inductive OutMsg where
  | join_confirmed (participantId roomId : String)
  | participant_joined (participantId : String)
  | participant_left (participantId : String)
  | sound_played (soundId participantId : String) (timestamp : Nat)
  | voice_join_confirmed (participantId roomId : String)
  | voice_participant_joined (participantId : String)
  | voice_participant_left (participantId : String)
  | voice_participant_count_changed (count : Nat)
  | voice_participant_muted (participantId : String) (isMuted : Bool)
  | forwarded (m : InMsg)
deriving DecidableEq, Repr

/-- Externally observable effects of one handler invocation, in program
order.  bcast is the per-call log line at the head of broadcastToRoom;
schedLater is the deferred broadcast registered with setTimeout in the
join_room case; logErr is the console.error in the cleanup timer catch. -/
inductive Output where
  | sendTo (wsId : Nat) (msg : OutMsg)
  | closeConn (wsId : Nat) (code : Nat) (reason : String)
  | schedLater (roomId : String) (msg : OutMsg) (exclude : Option String)
  | bcast (roomId : String) (msg : OutMsg) (exclude : Option String)
  | logErr (roomId : String)
deriving DecidableEq, Repr

/-- One entry of the clients map: interface WebSocketClient
(src/server/routes.ts:33-37). -/
structure WSClient where
  wsId : Nat
  participantId : String
  roomId : String
deriving DecidableEq, Repr

/-- One armed cleanup timer: the setTimeout handle stored in
roomCleanupTimers, together with the time at which it was armed
(it fires CLEANUP_GRACE_MS after armTime). -/
structure TimerInfo where
  tid : Nat
  armTime : Nat
deriving DecidableEq, Repr

/-- The mutable module state of src/server/routes.ts: clients,
voiceParticipants and roomCleanupTimers (lines 39-41), plus the
monotone counter that makes timer handles distinguishable and the
list of rooms deleted from the persisted store. -/
structure ServerState where
  clients : List (String × WSClient)
  voiceParticipants : List (String × List String)
  cleanupTimers : List (String × TimerInfo)
  nextTimerId : Nat
  deletedRooms : List String
deriving DecidableEq, Repr

/-- JS Map.get: first entry with the given key. -/
def mapGet {a : Type} (m : List (String × a)) (k : String) : Option a :=
  Option.map Prod.snd (m.find? (fun e => e.1 == k))

/-- JS Map.delete: remove the entry with the given key (keys are unique). -/
def mapDel {a : Type} (m : List (String × a)) (k : String) : List (String × a) :=
  m.filter (fun e => e.1 != k)

/-- JS Map.set: replace the first entry with the given key in place,
append if no entry has the key (insertion order is preserved). -/
def mapSet {a : Type} : List (String × a) → String → a → List (String × a)
  | [], k, v => [(k, v)]
  | e :: rest, k, v => if e.1 == k then (k, v) :: rest else e :: mapSet rest k v

/-- JS Set.add on a duplicate free list in insertion order. -/
def setAdd (xs : List String) (x : String) : List String :=
  if xs.contains x then xs else xs ++ [x]

/-- JS Set.delete on a duplicate free list. -/
def setDel (xs : List String) (x : String) : List String :=
  xs.filter (fun y => y != x)

/-- The close reason used when evicting a duplicate connection
(src/server/routes.ts:253). -/
def duplicateCloseReason : String := "Duplicate connection"

/-- The grace period of the room eviction scheduler in milliseconds:
the literal 3000 passed to setTimeout (src/server/routes.ts:146). -/
def CLEANUP_GRACE_MS : Nat := 3000

/-- The snapshot Array.from(clients.values()).filter(...) taken at the
top of broadcastToRoom (src/server/routes.ts:162-163); we keep the map
keys alongside the values because JS object identity ties each snapshot
element back to its unique map entry. -/
def roomSnapshot (clients : List (String × WSClient)) (roomId : String)
    (excl : Option String) : List (String × WSClient) :=
  clients.filter (fun e => e.2.roomId == roomId && !(some e.2.participantId == excl))

/-- One iteration of the forEach loop in broadcastToRoom
(src/server/routes.ts:177-204): an open client is sent the message,
a non-open client is pruned from the clients map. -/
def bcastStep (isOpen : Nat → Bool) (msg : OutMsg)
    (acc : List (String × WSClient) × List Output) (e : String × WSClient) :
    List (String × WSClient) × List Output :=
  if isOpen e.2.wsId then (acc.1, acc.2 ++ [Output.sendTo e.2.wsId msg])
  else (mapDel acc.1 e.1, acc.2)

/-- broadcastToRoom (src/server/routes.ts:161-207): snapshot the room
clients minus the excluded participant, then deliver to each open one and
prune each dead one; returns the updated clients map and the effects. -/
def broadcastToRoom (isOpen : Nat → Bool) (clients : List (String × WSClient))
    (roomId : String) (msg : OutMsg) (excl : Option String) :
    List (String × WSClient) × List Output :=
  let r := (roomSnapshot clients roomId excl).foldl (bcastStep isOpen msg) (clients, [])
  (r.1, Output.bcast roomId msg excl :: r.2)

/-- cancelRoomCleanup (src/server/routes.ts:152-159): clearTimeout plus
removal of the map entry if present, no-op otherwise. -/
def cancelRoomCleanup (roomId : String) (s : ServerState) : ServerState :=
  { s with cleanupTimers := mapDel s.cleanupTimers roomId }

/-- checkAndScheduleRoomCleanup (src/server/routes.ts:100-150): cancel any
existing timer for the room, query the persisted participant list
(hasActive is the result of .some(p => p.isActive)), and if no participant
is active arm one fresh 3 second timer for the room. -/
def checkAndScheduleRoomCleanup (roomId : String) (hasActive : Bool) (now : Nat)
    (s : ServerState) : ServerState :=
  let s1 : ServerState := { s with cleanupTimers := mapDel s.cleanupTimers roomId }
  if hasActive then s1
  else { s1 with
         cleanupTimers := mapSet s1.cleanupTimers roomId ⟨s1.nextTimerId, now⟩,
         nextTimerId := s1.nextTimerId + 1 }

/-- The setTimeout callback armed by checkAndScheduleRoomCleanup
(src/server/routes.ts:116-146).  A cleared timer never runs in JS, and a
timer handle is cleared exactly when its map entry is replaced or removed,
so the callback body runs only when the map still holds this handle.
stillEmpty is the re-queried double check, deleteOk the outcome of the
storage.deleteRoom call; on failure the catch block clears the timer
handle only. -/
def fireCleanupTimer (tid : Nat) (roomId : String) (stillEmpty deleteOk : Bool)
    (s : ServerState) : ServerState × List Output :=
  match mapGet s.cleanupTimers roomId with
  | none => (s, [])
  | some t =>
    if t.tid == tid then
      if stillEmpty then
        if deleteOk then
          ({ s with
             deletedRooms := roomId :: s.deletedRooms,
             voiceParticipants := mapDel s.voiceParticipants roomId,
             cleanupTimers := mapDel s.cleanupTimers roomId,
             clients := s.clients.filter (fun e => e.2.roomId != roomId) }, [])
        else
          ({ s with cleanupTimers := mapDel s.cleanupTimers roomId },
           [Output.logErr roomId])
      else
        ({ s with cleanupTimers := mapDel s.cleanupTimers roomId }, [])
    else (s, [])

/-- The main path of the join_room case (src/server/routes.ts:248-287),
reached when the connection is not already registered for this
participantId: close and remove every other client bound to the same
participantId, bind this connection, confirm the join, cancel any pending
room cleanup, and register the delayed participant_joined broadcast. -/
def joinRegister (isOpen : Nat → Bool) (clientId : String) (wsId : Nat)
    (pid rid : String) (s : ServerState) : ServerState × List Output :=
  let dups := s.clients.filter (fun e => e.1 != clientId && e.2.participantId == pid)
  let closeOuts := dups.filterMap (fun e =>
    if isOpen e.2.wsId then some (Output.closeConn e.2.wsId 1000 duplicateCloseReason)
    else none)
  let cs1 := s.clients.filter (fun e => !(e.1 != clientId && e.2.participantId == pid))
  let cs2 := mapSet cs1 clientId ⟨wsId, pid, rid⟩
  let s1 := cancelRoomCleanup rid { s with clients := cs2 }
  (s1, closeOuts ++
    [Output.sendTo wsId (OutMsg.join_confirmed pid rid),
     Output.schedLater rid (OutMsg.participant_joined pid) (some pid)])

/-- The voice_join case (src/server/routes.ts:290-318): record the voice
participant, confirm to the joiner, broadcast voice_participant_joined
excluding the joiner, then broadcast the new count with no exclusion. -/
def handleVoiceJoin (isOpen : Nat → Bool) (wsId : Nat) (pid rid : String)
    (s : ServerState) : ServerState × List Output :=
  let vs1 := setAdd ((mapGet s.voiceParticipants rid).getD []) pid
  let vp1 := mapSet s.voiceParticipants rid vs1
  let r1 := broadcastToRoom isOpen s.clients rid (OutMsg.voice_participant_joined pid) (some pid)
  let cnt := ((mapGet vp1 rid).getD []).length
  let r2 := broadcastToRoom isOpen r1.1 rid (OutMsg.voice_participant_count_changed cnt) none
  ({ s with clients := r2.1, voiceParticipants := vp1 },
   Output.sendTo wsId (OutMsg.voice_join_confirmed pid rid) :: (r1.2 ++ r2.2))

/-- The voice_leave case (src/server/routes.ts:320-341): drop the
participant from the voice set, pruning the set when it becomes empty,
broadcast voice_participant_left excluding the leaver, then broadcast the
updated count with no exclusion. -/
def handleVoiceLeave (isOpen : Nat → Bool) (pid rid : String)
    (s : ServerState) : ServerState × List Output :=
  let vp1 :=
    match mapGet s.voiceParticipants rid with
    | some vs =>
      let vs1 := setDel vs pid
      if vs1.isEmpty then mapDel s.voiceParticipants rid
      else mapSet s.voiceParticipants rid vs1
    | none => s.voiceParticipants
  let r1 := broadcastToRoom isOpen s.clients rid (OutMsg.voice_participant_left pid) (some pid)
  let cnt := ((mapGet vp1 rid).getD []).length
  let r2 := broadcastToRoom isOpen r1.1 rid (OutMsg.voice_participant_count_changed cnt) none
  ({ s with clients := r2.1, voiceParticipants := vp1 }, r1.2 ++ r2.2)

/-- The voice_offer, voice_answer and voice_ice_candidate cases
(src/server/routes.ts:343-353): find the connection registered for
(roomId, to); if present and open, forward the inbound message verbatim
to it alone; otherwise drop silently with no state change. -/
def handleVoiceSignal (isOpen : Nat → Bool) (m : InMsg) (rid toP : String)
    (s : ServerState) : ServerState × List Output :=
  match s.clients.find? (fun e => e.2.roomId == rid && e.2.participantId == toP) with
  | some e =>
    if isOpen e.2.wsId then (s, [Output.sendTo e.2.wsId (OutMsg.forwarded m)])
    else (s, [])
  | none => (s, [])

/-- The message switch of the wss connection handler
(src/server/routes.ts:233-390).  clientId and wsId identify the
connection whose handler is running; hasActive is the persisted-store
answer used by checkAndScheduleRoomCleanup in the leave_room case, and
now is the current clock (used for timer arming and the sound_played
timestamp). -/
def handleMessage (isOpen : Nat → Bool) (hasActive : Bool) (clientId : String)
    (wsId : Nat) (now : Nat) (m : InMsg) (s : ServerState) :
    ServerState × List Output :=
  match m with
  | InMsg.join_room pid rid =>
    match mapGet s.clients clientId with
    | some c =>
      if c.participantId == pid then
        (s, [Output.sendTo wsId (OutMsg.join_confirmed pid rid)])
      else joinRegister isOpen clientId wsId pid rid s
    | none => joinRegister isOpen clientId wsId pid rid s
  | InMsg.voice_join pid rid => handleVoiceJoin isOpen wsId pid rid s
  | InMsg.voice_leave pid rid => handleVoiceLeave isOpen pid rid s
  | InMsg.voice_signal _ rid _ toP _ => handleVoiceSignal isOpen m rid toP s
  | InMsg.voice_participant_muted pid rid isM =>
    let r := broadcastToRoom isOpen s.clients rid
      (OutMsg.voice_participant_muted pid isM) (some pid)
    ({ s with clients := r.1 }, r.2)
  | InMsg.play_sound sid pid rid =>
    let r := broadcastToRoom isOpen s.clients rid
      (OutMsg.sound_played sid pid now) (some pid)
    ({ s with clients := r.1 }, r.2)
  | InMsg.leave_room pid rid =>
    let s1 := checkAndScheduleRoomCleanup rid hasActive now s
    let r := broadcastToRoom isOpen s1.clients rid (OutMsg.participant_left pid) (some pid)
    ({ s1 with clients := mapDel r.1 clientId }, r.2)

/-- The ws close handler (src/server/routes.ts:396-448): if the closing
connection is registered, drop its participant from the voice set and, if
it was in voice chat, broadcast the updated count (no exclusion) and then
voice_participant_left (excluding the leaver); then mark the participant
inactive, run the eviction re-check, broadcast participant_left and remove
the registry entry. -/
def handleClose (isOpen : Nat → Bool) (hasActive : Bool) (clientId : String)
    (now : Nat) (s : ServerState) : ServerState × List Output :=
  match mapGet s.clients clientId with
  | none => (s, [])
  | some c =>
    let rid := c.roomId
    let pid := c.participantId
    let vpw :=
      match mapGet s.voiceParticipants rid with
      | some vs =>
        let vs1 := setDel vs pid
        ((if vs1.isEmpty then mapDel s.voiceParticipants rid
          else mapSet s.voiceParticipants rid vs1), vs.contains pid)
      | none => (s.voiceParticipants, false)
    let voicePhase :=
      if vpw.2 then
        let cnt := ((mapGet vpw.1 rid).getD []).length
        let rA := broadcastToRoom isOpen s.clients rid
          (OutMsg.voice_participant_count_changed cnt) none
        let rB := broadcastToRoom isOpen rA.1 rid
          (OutMsg.voice_participant_left pid) (some pid)
        (rB.1, rA.2 ++ rB.2)
      else (s.clients, ([] : List Output))
    let s1 := checkAndScheduleRoomCleanup rid hasActive now
      { s with voiceParticipants := vpw.1, clients := voicePhase.1 }
    let r := broadcastToRoom isOpen s1.clients rid (OutMsg.participant_left pid) (some pid)
    ({ s1 with clients := mapDel r.1 clientId }, voicePhase.2 ++ r.2)

/-- One event of the single-threaded event loop: an inbound message on a
connection, a transport close, or a cleanup timer callback becoming due. -/
inductive Event where
  | msgEvt (isOpen : Nat → Bool) (hasActive : Bool) (clientId : String)
      (wsId : Nat) (now : Nat) (m : InMsg)
  | closeEvt (isOpen : Nat → Bool) (hasActive : Bool) (clientId : String) (now : Nat)
  | fireEvt (tid : Nat) (roomId : String) (stillEmpty deleteOk : Bool)

/-- State transition of one event (outputs discarded). -/
def applyEvent (e : Event) (s : ServerState) : ServerState :=
  match e with
  | Event.msgEvt isOpen ha cid ws now m => (handleMessage isOpen ha cid ws now m s).1
  | Event.closeEvt isOpen ha cid now => (handleClose isOpen ha cid now s).1
  | Event.fireEvt tid rid se dk => (fireCleanupTimer tid rid se dk s).1

/-- Fold of applyEvent over an event list. -/
def applyEvents (es : List Event) (s : ServerState) : ServerState :=
  es.foldl (fun s e => applyEvent e s) s

/-- The registry invariant of claim C1: no two distinct map entries are
bound to the same participantId. -/
def atMostOnePid (cs : List (String × WSClient)) : Prop :=
  ∀ e ∈ cs, ∀ f ∈ cs, e.2.participantId = f.2.participantId → e.1 = f.1

/-- Every armed timer handle was drawn from the counter. -/
def timerIdsBounded (s : ServerState) : Prop :=
  ∀ e ∈ s.cleanupTimers, e.2.tid < s.nextTimerId

/-- A timer handle that can never run again for the given room: it is not
the armed handle for the room, and the counter has moved past it, so no
later arming can reuse it. -/
def DeadTimer (tid : Nat) (rid : String) (s : ServerState) : Prop :=
  tid < s.nextTimerId ∧ ∀ t, mapGet s.cleanupTimers rid = some t → t.tid ≠ tid

/-- The voice count of a room as the source computes it:
voiceParticipants.get(roomId)?.size || 0. -/
def voiceCount (s : ServerState) (rid : String) : Nat :=
  ((mapGet s.voiceParticipants rid).getD []).length

/-- The sequence of count values carried by voice_participant_count_changed
broadcast calls in an output trace (one entry per broadcastToRoom call). -/
def countCalls (l : List Output) : List Nat :=
  l.filterMap (fun o =>
    match o with
    | Output.bcast _ (OutMsg.voice_participant_count_changed n) _ => some n
    | _ => none)

/-- Whether an outbound message belongs to the voice subsystem. -/
def voiceMsg : OutMsg → Bool
  | OutMsg.voice_join_confirmed _ _ => true
  | OutMsg.voice_participant_joined _ => true
  | OutMsg.voice_participant_left _ => true
  | OutMsg.voice_participant_count_changed _ => true
  | OutMsg.voice_participant_muted _ _ => true
  | OutMsg.forwarded _ => true
  | _ => false

/-- Whether an output is a voice related effect. -/
def outputIsVoice : Output → Bool
  | Output.sendTo _ m => voiceMsg m
  | Output.schedLater _ m _ => voiceMsg m
  | Output.bcast _ m _ => voiceMsg m
  | _ => false

/-- The sequence of voice related broadcast calls in an output trace. -/
def voiceBcastMsgs (l : List Output) : List OutMsg :=
  l.filterMap (fun o =>
    match o with
    | Output.bcast _ m _ => if voiceMsg m then some m else none
    | _ => none)

/-- The keys of the snapshot entries that the forEach loop of
broadcastToRoom prunes (those whose socket is not open). -/
def deadKeys (isOpen : Nat → Bool) (snap : List (String × WSClient)) : List String :=
  (snap.filter (fun e => !(isOpen e.2.wsId))).map Prod.fst

/-- What one broadcast call contributes to countCalls. -/
def countTag : OutMsg → List Nat
  | OutMsg.voice_participant_count_changed n => [n]
  | _ => []

/-- What one broadcast call contributes to voiceBcastMsgs. -/
def vbTag (m : OutMsg) : List OutMsg :=
  if voiceMsg m then [m] else []

/-- Fixture: every socket open. -/
def isOpenAll : Nat → Bool := fun _ => true

/-- Fixture: only socket 2 open (socket 1 is half closed). -/
def openOnly2 : Nat → Bool := fun n => n == 2

/-- Fixture client on socket 1. -/
def clientA : WSClient := ⟨1, "p7", "r1"⟩

/-- Fixture client on socket 2. -/
def clientB : WSClient := ⟨2, "p8", "r1"⟩

/-- Fixture: two clients in room r1, no voice, no timers. -/
def baseState : ServerState := ⟨[("ca", clientA), ("cb", clientB)], [], [], 0, []⟩

/-- Fixture: two clients in room r1, participant p7 in voice chat. -/
def voiceState : ServerState :=
  ⟨[("ca", clientA), ("cb", clientB)], [("r1", ["p7"])], [], 0, []⟩

/-- Fixture: two clients in room r1 and a pending eviction timer for r1. -/
def timerState : ServerState :=
  ⟨[("ca", clientA), ("cb", clientB)], [], [("r1", ⟨0, 100⟩)], 1, []⟩

/- ===== Helper lemmas about the map and set primitives ===== -/

theorem mapGet_eq_none_iff {a : Type} (m : List (String × a)) (k : String) :
    mapGet m k = none ↔ ∀ e ∈ m, e.1 ≠ k := by
  simp [mapGet, List.find?_eq_none]

theorem mapGet_mem {a : Type} {m : List (String × a)} {k : String} {v : a}
    (h : mapGet m k = some v) : (k, v) ∈ m := by
  simp only [mapGet, Option.map_eq_some'] at h
  obtain ⟨e, he, hv⟩ := h
  have hm := List.mem_of_find?_eq_some he
  have hk := List.find?_some he
  simp only [beq_iff_eq] at hk
  subst hk; subst hv
  exact hm

theorem mapGet_mapDel_self {a : Type} (m : List (String × a)) (k : String) :
    mapGet (mapDel m k) k = none := by
  rw [mapGet_eq_none_iff]
  intro e he
  simp only [mapDel, List.mem_filter, bne_iff_ne, ne_eq] at he
  exact he.2

theorem mapGet_cons {a : Type} (e : String × a) (m : List (String × a)) (k : String) :
    mapGet (e :: m) k = if e.1 = k then some e.2 else mapGet m k := by
  by_cases h : e.1 = k
  · have hb : (e.1 == k) = true := by simp [h]
    simp [mapGet, List.find?_cons_of_pos, hb, h]
  · have hb : ¬((fun f => f.1 == k) e = true) := by simp [h]
    simp [mapGet, List.find?_cons_of_neg _ hb, h]

theorem mapDel_cons {a : Type} (e : String × a) (m : List (String × a)) (k : String) :
    mapDel (e :: m) k = if e.1 = k then mapDel m k else e :: mapDel m k := by
  by_cases h : e.1 = k
  · have hb : ((fun f => f.1 != k) e) = false := by simp [h]
    simp [mapDel, List.filter_cons, hb, h]
  · have hb : ((fun f => f.1 != k) e) = true := by simp [h]
    simp [mapDel, List.filter_cons, hb, h]

theorem mapGet_mapDel_ne {a : Type} (m : List (String × a)) {k1 k2 : String}
    (h : k2 ≠ k1) : mapGet (mapDel m k1) k2 = mapGet m k2 := by
  induction m with
  | nil => rfl
  | cons e rest ih =>
    rw [mapDel_cons, mapGet_cons]
    by_cases hk : e.1 = k1
    · have hne : ¬((k1 : String) = k2) := fun hc => h hc.symm
      simp [hk, hne, ih]
    · rw [if_neg hk, mapGet_cons, ih]

theorem mapGet_mapSet_self {a : Type} (m : List (String × a)) (k : String) (v : a) :
    mapGet (mapSet m k v) k = some v := by
  induction m with
  | nil => simp [mapSet, mapGet_cons, mapGet]
  | cons e rest ih =>
    by_cases hk : e.1 = k
    · have hb : (e.1 == k) = true := by simp [hk]
      simp [mapSet, hb, mapGet_cons]
    · have hb : (e.1 == k) = false := by simp [hk]
      simp only [mapSet, hb, Bool.false_eq_true, if_false]
      rw [mapGet_cons, if_neg hk, ih]

theorem mapGet_mapSet_ne {a : Type} (m : List (String × a)) {k1 k2 : String} (v : a)
    (h : k2 ≠ k1) : mapGet (mapSet m k1 v) k2 = mapGet m k2 := by
  induction m with
  | nil =>
    have hk : ¬((k1 : String) = k2) := fun hc => h hc.symm
    simp [mapSet, mapGet_cons, hk, mapGet]
  | cons e rest ih =>
    by_cases hk : e.1 = k1
    · have hb : (e.1 == k1) = true := by simp [hk]
      have hne : ¬((k1 : String) = k2) := fun hc => h hc.symm
      rw [mapSet, if_pos hb, mapGet_cons, mapGet_cons]
      simp only [hne, if_false, hk]
    · have hb : (e.1 == k1) = false := by simp [hk]
      simp only [mapSet, hb, Bool.false_eq_true, if_false]
      rw [mapGet_cons, mapGet_cons, ih]

theorem mem_mapSet {a : Type} {m : List (String × a)} {k : String} {v : a}
    {e : String × a} (h : e ∈ mapSet m k v) : e = (k, v) ∨ e ∈ m := by
  induction m with
  | nil => simp [mapSet] at h; simp [h]
  | cons f rest ih =>
    by_cases hk : f.1 = k
    · simp only [mapSet, beq_iff_eq, hk, if_true, List.mem_cons] at h
      rcases h with h | h
      · exact Or.inl h
      · exact Or.inr (List.mem_cons_of_mem _ h)
    · simp only [mapSet, beq_iff_eq, hk, if_false, List.mem_cons] at h
      rcases h with h | h
      · exact Or.inr (by simp [h])
      · rcases ih h with h2 | h2
        · exact Or.inl h2
        · exact Or.inr (List.mem_cons_of_mem _ h2)

theorem mapSet_of_absent {a : Type} {m : List (String × a)} {k : String} (v : a)
    (h : mapGet m k = none) : mapSet m k v = m ++ [(k, v)] := by
  induction m with
  | nil => rfl
  | cons e rest ih =>
    rw [mapGet_eq_none_iff] at h
    have he : e.1 ≠ k := h e (List.mem_cons_self e rest)
    have hrest : mapGet rest k = none := by
      rw [mapGet_eq_none_iff]
      exact fun f hf => h f (List.mem_cons_of_mem _ hf)
    simp [mapSet, he, ih hrest]

theorem setDel_contains_self (xs : List String) (x : String) :
    (setDel xs x).contains x = false := by
  simp only [setDel, List.contains_eq_any_beq, List.any_eq_false]
  intro y hy
  simp only [List.mem_filter, bne_iff_ne, ne_eq] at hy
  simp [beq_iff_eq]
  exact fun hc => hy.2 hc.symm

theorem filter_eq_singleton_of_unique {α : Type} {l : List α} {p : α → Bool} {x : α}
    (hl : l.Nodup) (hx : x ∈ l) (hpx : p x = true)
    (huniq : ∀ y ∈ l, p y = true → y = x) : l.filter p = [x] := by
  induction l with
  | nil => cases hx
  | cons a rest ih =>
    rcases List.mem_cons.mp hx with h | h
    · subst h
      have hrest : rest.filter p = [] := by
        rw [List.filter_eq_nil_iff]
        intro y hy hpy
        have := huniq y (List.mem_cons_of_mem _ hy) hpy
        subst this
        exact (List.nodup_cons.mp hl).1 hy
      simp [List.filter_cons, hpx, hrest]
    · have hax : a ≠ x := by
        intro hc; subst hc
        exact (List.nodup_cons.mp hl).1 h
      have hpa : p a = false := by
        by_contra hc
        simp only [Bool.not_eq_false] at hc
        exact hax (huniq a (List.mem_cons_self a rest) hc)
      simp only [List.filter_cons, hpa, Bool.false_eq_true, if_false]
      exact ih (List.nodup_cons.mp hl).2 h
        (fun y hy hpy => huniq y (List.mem_cons_of_mem _ hy) hpy)

theorem find?_eq_some_of_unique {α : Type} {l : List α} {p : α → Bool} {x : α}
    (hx : x ∈ l) (hpx : p x = true)
    (huniq : ∀ y ∈ l, p y = true → y = x) : l.find? p = some x := by
  induction l with
  | nil => cases hx
  | cons a rest ih =>
    by_cases hpa : p a = true
    · have := huniq a (List.mem_cons_self a rest) hpa
      subst this
      simp [List.find?, hpa]
    · simp only [Bool.not_eq_true] at hpa
      rw [List.find?, hpa]
      have hax : x ≠ a := by
        intro hc; subst hc; rw [hpx] at hpa; cases hpa
      rcases List.mem_cons.mp hx with h | h
      · exact absurd h hax
      · exact ih h (fun y hy hpy => huniq y (List.mem_cons_of_mem _ hy) hpy)

/- ===== Characterization of broadcastToRoom ===== -/

theorem bcast_foldl (isOpen : Nat → Bool) (msg : OutMsg)
    (snap : List (String × WSClient)) (acc : List (String × WSClient))
    (outs : List Output) :
    snap.foldl (bcastStep isOpen msg) (acc, outs) =
      (acc.filter (fun e => !((deadKeys isOpen snap).contains e.1)),
       outs ++ (snap.filter (fun e => isOpen e.2.wsId)).map
         (fun e => Output.sendTo e.2.wsId msg)) := by
  induction snap generalizing acc outs with
  | nil => simp [deadKeys]
  | cons e rest ih =>
    by_cases ho : isOpen e.2.wsId = true
    · rw [List.foldl_cons]
      have hstep : bcastStep isOpen msg (acc, outs) e
          = (acc, outs ++ [Output.sendTo e.2.wsId msg]) := by
        simp [bcastStep, ho]
      rw [hstep, ih]
      have hdk : deadKeys isOpen (e :: rest) = deadKeys isOpen rest := by
        simp [deadKeys, List.filter_cons, ho]
      simp [hdk, List.filter_cons, ho]
    · simp only [Bool.not_eq_true] at ho
      rw [List.foldl_cons]
      have hstep : bcastStep isOpen msg (acc, outs) e = (mapDel acc e.1, outs) := by
        simp [bcastStep, ho]
      rw [hstep, ih]
      have hdk : deadKeys isOpen (e :: rest) = e.1 :: deadKeys isOpen rest := by
        simp [deadKeys, List.filter_cons, ho]
      rw [hdk]
      have hfst : (mapDel acc e.1).filter
            (fun f => !((deadKeys isOpen rest).contains f.1))
          = acc.filter (fun f => !((e.1 :: deadKeys isOpen rest).contains f.1)) := by
        simp only [mapDel, List.filter_filter]
        apply List.filter_congr
        intro f _
        have hb : (f.1 != e.1) = !decide (f.1 = e.1) := by
          by_cases h : f.1 = e.1 <;> simp [h]
        simp [List.contains_cons, Bool.not_or, Bool.and_comm, hb]
      rw [hfst]
      simp [List.filter_cons, ho]

theorem broadcastToRoom_eq (isOpen : Nat → Bool) (cs : List (String × WSClient))
    (rid : String) (msg : OutMsg) (excl : Option String) :
    broadcastToRoom isOpen cs rid msg excl =
      (cs.filter (fun e => !((deadKeys isOpen (roomSnapshot cs rid excl)).contains e.1)),
       Output.bcast rid msg excl ::
         ((roomSnapshot cs rid excl).filter (fun e => isOpen e.2.wsId)).map
           (fun e => Output.sendTo e.2.wsId msg)) := by
  simp [broadcastToRoom, bcast_foldl]

theorem contains_deadKeys_iff (isOpen : Nat → Bool)
    (snap : List (String × WSClient)) (k : String) :
    (deadKeys isOpen snap).contains k = true ↔
      ∃ d ∈ snap, isOpen d.2.wsId = false ∧ d.1 = k := by
  simp only [deadKeys, List.contains_eq_any_beq, List.any_eq_true, List.mem_map,
    List.mem_filter, Bool.not_eq_true', beq_iff_eq]
  constructor
  · rintro ⟨x, ⟨d, ⟨hd, hop⟩, hx⟩, hk⟩
    exact ⟨d, hd, hop, by rw [hx, ← hk]⟩
  · rintro ⟨d, hd, hop, hk⟩
    exact ⟨d.1, ⟨d, ⟨hd, hop⟩, rfl⟩, hk.symm⟩

theorem bcast_outs (isOpen : Nat → Bool) (cs : List (String × WSClient))
    (rid : String) (msg : OutMsg) (excl : Option String) :
    (broadcastToRoom isOpen cs rid msg excl).2 =
      Output.bcast rid msg excl ::
        (cs.filter (fun e => e.2.roomId == rid
            && !(some e.2.participantId == excl)
            && isOpen e.2.wsId)).map (fun e => Output.sendTo e.2.wsId msg) := by
  rw [broadcastToRoom_eq]
  simp only [roomSnapshot, List.filter_filter]
  congr 1
  congr 1
  apply List.filter_congr
  intro e _
  simp [Bool.and_comm, Bool.and_assoc, Bool.and_left_comm]

theorem bcast_state (isOpen : Nat → Bool) (cs : List (String × WSClient))
    (rid : String) (msg : OutMsg) (excl : Option String)
    (hnodup : (cs.map Prod.fst).Nodup) :
    (broadcastToRoom isOpen cs rid msg excl).1 =
      cs.filter (fun e => !(e.2.roomId == rid
          && !(some e.2.participantId == excl)
          && !(isOpen e.2.wsId))) := by
  rw [broadcastToRoom_eq]
  apply List.filter_congr
  intro e he
  have key : (deadKeys isOpen (roomSnapshot cs rid excl)).contains e.1
      = (e.2.roomId == rid && !(some e.2.participantId == excl)
          && !(isOpen e.2.wsId)) := by
    rw [Bool.eq_iff_iff, contains_deadKeys_iff]
    constructor
    · rintro ⟨d, hd, hop, hk⟩
      have hdcs : d ∈ cs := List.mem_of_mem_filter hd
      have hde : d = e := List.inj_on_of_nodup_map hnodup hdcs he hk
      subst hde
      have hm := (List.mem_filter.mp hd).2
      simp only [Bool.and_eq_true] at hm
      simp [hm.1, hm.2, hop]
    · intro h
      simp only [Bool.and_eq_true, Bool.not_eq_true'] at h
      refine ⟨e, List.mem_filter.mpr ⟨he, ?_⟩, ?_, rfl⟩
      · simp [h.1.1, h.1.2]
      · exact h.2
  rw [key]

theorem bcast_noroom (isOpen : Nat → Bool) (cs : List (String × WSClient))
    (rid : String) (msg : OutMsg) (excl : Option String)
    (hnr : ∀ e ∈ cs, e.2.roomId ≠ rid) :
    broadcastToRoom isOpen cs rid msg excl = (cs, [Output.bcast rid msg excl]) := by
  have hsnap : roomSnapshot cs rid excl = [] := by
    rw [roomSnapshot, List.filter_eq_nil_iff]
    intro e he
    simp [hnr e he]
  rw [broadcastToRoom_eq, hsnap]
  simp [deadKeys]

/-- C3: broadcastToRoom delivers the payload to exactly the open
connections registered under roomId other than the excluded participant
(in registry order); every non open room connection is pruned from the
registry as a side effect without aborting the remaining deliveries; and
for a room with zero registered connections the call is a no-op on the
registry with no deliveries. -/
theorem broadcast_delivers_exactly (isOpen : Nat → Bool)
    (cs : List (String × WSClient)) (rid : String) (msg : OutMsg)
    (excl : Option String) :
    (broadcastToRoom isOpen cs rid msg excl).2 =
      Output.bcast rid msg excl ::
        (cs.filter (fun e => e.2.roomId == rid
            && !(some e.2.participantId == excl)
            && isOpen e.2.wsId)).map (fun e => Output.sendTo e.2.wsId msg) ∧
    ((cs.map Prod.fst).Nodup →
      (broadcastToRoom isOpen cs rid msg excl).1 =
        cs.filter (fun e => !(e.2.roomId == rid
            && !(some e.2.participantId == excl)
            && !(isOpen e.2.wsId)))) ∧
    ((∀ e ∈ cs, e.2.roomId ≠ rid) →
      broadcastToRoom isOpen cs rid msg excl = (cs, [Output.bcast rid msg excl])) :=
  ⟨bcast_outs isOpen cs rid msg excl,
   fun h => bcast_state isOpen cs rid msg excl h,
   fun h => bcast_noroom isOpen cs rid msg excl h⟩

theorem broadcast_delivers_exactly_witness :
    (broadcastToRoom openOnly2 [("ca", clientA), ("cb", clientB)] ("r1")
      (OutMsg.participant_left ("p7")) (some ("p9"))).1 = [("cb", clientB)] := by
  have h := (broadcast_delivers_exactly openOnly2 [("ca", clientA), ("cb", clientB)]
    ("r1") (OutMsg.participant_left ("p7")) (some ("p9"))).2.1 (by decide)
  rw [h]
  decide

/- ===== C1: duplicate connection eviction on join_room ===== -/

/-- C1: when join_room arrives for a participantId already bound to a
different connection, the handler closes that prior connection with the
duplicate-connection close (code 1000, reason Duplicate connection) before
sending join_confirmed to the new connection, removes the prior binding
from the registry, binds the new connection, and preserves the
at-most-one-connection-per-participant invariant. -/
theorem join_evicts_duplicate_before_confirm
    (isOpen : Nat → Bool) (ha : Bool) (cid : String) (ws now : Nat)
    (pid rid : String) (s : ServerState)
    (hkeys : (s.clients.map Prod.fst).Nodup)
    (hone : atMostOnePid s.clients)
    (id0 : String) (c0 : WSClient)
    (hmem : (id0, c0) ∈ s.clients) (hne : id0 ≠ cid)
    (hpid : c0.participantId = pid) (hopen : isOpen c0.wsId = true) :
    (handleMessage isOpen ha cid ws now (InMsg.join_room pid rid) s).2 =
      [Output.closeConn c0.wsId 1000 duplicateCloseReason,
       Output.sendTo ws (OutMsg.join_confirmed pid rid),
       Output.schedLater rid (OutMsg.participant_joined pid) (some pid)] ∧
    mapGet (handleMessage isOpen ha cid ws now (InMsg.join_room pid rid) s).1.clients id0
      = none ∧
    mapGet (handleMessage isOpen ha cid ws now (InMsg.join_room pid rid) s).1.clients cid
      = some ⟨ws, pid, rid⟩ ∧
    atMostOnePid (handleMessage isOpen ha cid ws now (InMsg.join_room pid rid) s).1.clients := by
  have hdisp : handleMessage isOpen ha cid ws now (InMsg.join_room pid rid) s
      = joinRegister isOpen cid ws pid rid s := by
    simp only [handleMessage]
    cases hc : mapGet s.clients cid with
    | none => rfl
    | some c =>
      have hcc : (cid, c) ∈ s.clients := mapGet_mem hc
      have hcp : c.participantId ≠ pid := by
        intro hcp
        exact hne (hone (cid, c) hcc (id0, c0) hmem (by simp [hcp, hpid])).symm
      simp [hcp]
  rw [hdisp]
  have hdups : s.clients.filter (fun e => e.1 != cid && e.2.participantId == pid)
      = [(id0, c0)] := by
    apply filter_eq_singleton_of_unique (List.Nodup.of_map Prod.fst hkeys) hmem
    · simp [hne, hpid]
    · intro y hy hpy
      simp only [Bool.and_eq_true, bne_iff_ne, ne_eq, beq_iff_eq] at hpy
      have hk : y.1 = id0 := hone y hy (id0, c0) hmem (by rw [hpy.2, hpid])
      exact List.inj_on_of_nodup_map hkeys hy hmem hk
  have hcs1pid : ∀ e ∈ s.clients.filter
      (fun e => !(e.1 != cid && e.2.participantId == pid)),
      e.2.participantId ≠ pid := by
    intro e he hpe
    have hem := List.mem_of_mem_filter he
    have hk : e.1 = id0 := hone e hem (id0, c0) hmem (by rw [hpe, hpid])
    have hnp := (List.mem_filter.mp he).2
    simp [hk, hne, hpe] at hnp
  refine ⟨?_, ?_, ?_, ?_⟩
  · simp only [joinRegister]
    rw [hdups]
    simp [hopen]
  · simp only [joinRegister, cancelRoomCleanup]
    rw [mapGet_mapSet_ne _ _ hne]
    rw [mapGet_eq_none_iff]
    intro e he hk
    have hem : e ∈ s.clients := List.mem_of_mem_filter he
    have he0 : e = (id0, c0) := List.inj_on_of_nodup_map hkeys hem hmem hk
    have hpred := (List.mem_filter.mp he).2
    rw [he0] at hpred
    simp [hne, hpid] at hpred
  · simp only [joinRegister, cancelRoomCleanup]
    exact mapGet_mapSet_self _ _ _
  · simp only [joinRegister, cancelRoomCleanup]
    intro e hee f hff hpe
    rcases mem_mapSet hee with he1 | he1 <;> rcases mem_mapSet hff with hf1 | hf1
    · rw [he1, hf1]
    · exfalso
      apply hcs1pid f hf1
      rw [← hpe, he1]
    · exfalso
      apply hcs1pid e he1
      rw [hpe, hf1]
    · exact hone e (List.mem_of_mem_filter he1) f (List.mem_of_mem_filter hf1) hpe

theorem join_evicts_duplicate_before_confirm_witness :
    (handleMessage isOpenAll true ("cc") 3 0 (InMsg.join_room ("p7") ("r1")) baseState).2 =
      [Output.closeConn 1 1000 duplicateCloseReason,
       Output.sendTo 3 (OutMsg.join_confirmed ("p7") ("r1")),
       Output.schedLater ("r1") (OutMsg.participant_joined ("p7")) (some ("p7"))] :=
  (join_evicts_duplicate_before_confirm isOpenAll true ("cc") 3 0 ("p7") ("r1")
    baseState (by decide) (by unfold atMostOnePid; decide) ("ca") clientA
    (by decide) (by decide) rfl rfl).1

/- ===== C5: signaling relay ===== -/

theorem handleVoiceSignal_state (isOpen : Nat → Bool) (m : InMsg) (rid toP : String)
    (s : ServerState) : (handleVoiceSignal isOpen m rid toP s).1 = s := by
  simp only [handleVoiceSignal]
  split
  · split <;> rfl
  · rfl

/-- C5: a voice_offer, voice_answer or voice_ice_candidate message is
forwarded verbatim (the whole inbound envelope) to the unique open
connection registered for (roomId, to), and only to it, with no state
change; if no connection is registered for (roomId, to), or the registered
one is not open, the message is dropped silently: no output at all and no
state change. -/
theorem relay_unicast_or_drop (isOpen : Nat → Bool) (ha : Bool) (cid : String)
    (ws now : Nat) (k : SignalKind) (rid fromP toP payload : String)
    (s : ServerState) :
    (handleMessage isOpen ha cid ws now (InMsg.voice_signal k rid fromP toP payload) s).1
      = s ∧
    (∀ id0 c0, (s.clients.map Prod.fst).Nodup → atMostOnePid s.clients →
      (id0, c0) ∈ s.clients → c0.roomId = rid → c0.participantId = toP →
      isOpen c0.wsId = true →
      (handleMessage isOpen ha cid ws now (InMsg.voice_signal k rid fromP toP payload) s).2
        = [Output.sendTo c0.wsId
            (OutMsg.forwarded (InMsg.voice_signal k rid fromP toP payload))]) ∧
    (∀ id0 c0, (s.clients.map Prod.fst).Nodup → atMostOnePid s.clients →
      (id0, c0) ∈ s.clients → c0.roomId = rid → c0.participantId = toP →
      isOpen c0.wsId = false →
      (handleMessage isOpen ha cid ws now (InMsg.voice_signal k rid fromP toP payload) s).2
        = []) ∧
    ((∀ e ∈ s.clients, ¬(e.2.roomId = rid ∧ e.2.participantId = toP)) →
      (handleMessage isOpen ha cid ws now (InMsg.voice_signal k rid fromP toP payload) s).2
        = []) := by
  have hfind : ∀ id0 c0, (s.clients.map Prod.fst).Nodup → atMostOnePid s.clients →
      (id0, c0) ∈ s.clients → c0.roomId = rid → c0.participantId = toP →
      s.clients.find? (fun e => e.2.roomId == rid && e.2.participantId == toP)
        = some (id0, c0) := by
    intro id0 c0 hkeys hone hmem hroom hpid
    apply find?_eq_some_of_unique hmem
    · simp [hroom, hpid]
    · intro y hy hpy
      simp only [Bool.and_eq_true, beq_iff_eq] at hpy
      have hk : y.1 = id0 := hone y hy (id0, c0) hmem (by rw [hpy.2, hpid])
      exact List.inj_on_of_nodup_map hkeys hy hmem hk
  refine ⟨handleVoiceSignal_state isOpen _ rid toP s, ?_, ?_, ?_⟩
  · intro id0 c0 hkeys hone hmem hroom hpid hopen
    simp only [handleMessage, handleVoiceSignal,
      hfind id0 c0 hkeys hone hmem hroom hpid, hopen]
    simp
  · intro id0 c0 hkeys hone hmem hroom hpid hclosed
    simp only [handleMessage, handleVoiceSignal,
      hfind id0 c0 hkeys hone hmem hroom hpid, hclosed]
    simp
  · intro hnone
    have hf : s.clients.find? (fun e => e.2.roomId == rid && e.2.participantId == toP)
        = none := by
      rw [List.find?_eq_none]
      intro e he
      have := hnone e he
      simp only [not_and] at this
      simp only [Bool.and_eq_true, beq_iff_eq, not_and]
      intro hr
      exact this hr
    simp only [handleMessage, handleVoiceSignal, hf]

theorem relay_unicast_or_drop_witness :
    (handleMessage isOpenAll true ("ca") 1 0
      (InMsg.voice_signal SignalKind.voice_offer ("r1") ("p7") ("p8") ("sdp"))
      baseState).2
      = [Output.sendTo 2 (OutMsg.forwarded
          (InMsg.voice_signal SignalKind.voice_offer ("r1") ("p7") ("p8") ("sdp")))] :=
  (relay_unicast_or_drop isOpenAll true ("ca") 1 0 SignalKind.voice_offer
      ("r1") ("p7") ("p8") ("sdp") baseState).2.1 ("cb") clientB
    (by decide) (by unfold atMostOnePid; decide) (by decide) rfl rfl rfl

/- ===== C6: voice_join sequence ===== -/

theorem some_beq_none (x : String) : ((some x == (none : Option String)) = false) := rfl

theorem setAdd_contains_self (xs : List String) (x : String) :
    (setAdd xs x).contains x = true := by
  by_cases h : xs.contains x = true
  · unfold setAdd
    rw [if_pos h]
    exact h
  · simp only [Bool.not_eq_true] at h
    unfold setAdd
    rw [if_neg (by rw [h]; simp)]
    simp [List.contains_eq_any_beq]

theorem setAdd_idem (xs : List String) (x : String)
    (h : xs.contains x = true) : setAdd xs x = xs := by
  unfold setAdd
  rw [if_pos h]

theorem keys_filter_nodup (cs : List (String × WSClient))
    (p : String × WSClient → Bool) (h : (cs.map Prod.fst).Nodup) :
    ((cs.filter p).map Prod.fst).Nodup :=
  h.sublist (List.Sublist.map Prod.fst (List.filter_sublist cs))

/-- C6: voice_join adds the participant to the voice set of the room
(idempotently), then emits in order: the voice_join_confirmed
acknowledgment to the joining socket only, the voice_participant_joined
broadcast excluding the joiner, and the voice_participant_count_changed
broadcast carrying the new voice set cardinality whose recipient filter
has no participant exclusion (all open room connections, the joiner
included, receive it). -/
theorem voice_join_sequence (isOpen : Nat → Bool) (ha : Bool) (cid : String)
    (ws now : Nat) (pid rid : String) (s : ServerState)
    (hkeys : (s.clients.map Prod.fst).Nodup) :
    mapGet (handleMessage isOpen ha cid ws now (InMsg.voice_join pid rid) s).1.voiceParticipants
        rid = some (setAdd ((mapGet s.voiceParticipants rid).getD []) pid) ∧
    (setAdd ((mapGet s.voiceParticipants rid).getD []) pid).contains pid = true ∧
    (((mapGet s.voiceParticipants rid).getD []).contains pid = true →
      setAdd ((mapGet s.voiceParticipants rid).getD []) pid
        = (mapGet s.voiceParticipants rid).getD []) ∧
    (handleMessage isOpen ha cid ws now (InMsg.voice_join pid rid) s).2 =
      Output.sendTo ws (OutMsg.voice_join_confirmed pid rid) ::
      Output.bcast rid (OutMsg.voice_participant_joined pid) (some pid) ::
      ((s.clients.filter (fun e => e.2.roomId == rid
          && !(some e.2.participantId == some pid)
          && isOpen e.2.wsId)).map
        (fun e => Output.sendTo e.2.wsId (OutMsg.voice_participant_joined pid))
      ++ Output.bcast rid (OutMsg.voice_participant_count_changed
            (setAdd ((mapGet s.voiceParticipants rid).getD []) pid).length) none ::
        ((s.clients.filter (fun e => !(e.2.roomId == rid
              && !(some e.2.participantId == some pid)
              && !(isOpen e.2.wsId)))).filter
            (fun e => e.2.roomId == rid && isOpen e.2.wsId)).map
          (fun e => Output.sendTo e.2.wsId
            (OutMsg.voice_participant_count_changed
              (setAdd ((mapGet s.voiceParticipants rid).getD []) pid).length))) := by
  refine ⟨?_, setAdd_contains_self _ _, setAdd_idem _ _, ?_⟩
  · simp only [handleMessage, handleVoiceJoin]
    exact mapGet_mapSet_self _ _ _
  · simp only [handleMessage, handleVoiceJoin]
    rw [mapGet_mapSet_self, Option.getD_some]
    rw [bcast_state isOpen s.clients rid (OutMsg.voice_participant_joined pid)
      (some pid) hkeys]
    rw [bcast_outs, bcast_outs]
    have hfix : (s.clients.filter (fun e => !(e.2.roomId == rid
          && !(some e.2.participantId == some pid)
          && !(isOpen e.2.wsId)))).filter
        (fun e => e.2.roomId == rid
          && !(some e.2.participantId == (none : Option String))
          && isOpen e.2.wsId)
      = (s.clients.filter (fun e => !(e.2.roomId == rid
          && !(some e.2.participantId == some pid)
          && !(isOpen e.2.wsId)))).filter
        (fun e => e.2.roomId == rid && isOpen e.2.wsId) := by
      apply List.filter_congr
      intro e _
      rw [some_beq_none]
      simp
    rw [hfix]
    simp [List.cons_append]

theorem voice_join_sequence_witness :
    (handleMessage isOpenAll true ("ca") 1 0 (InMsg.voice_join ("p7") ("r1"))
      baseState).2 =
      Output.sendTo 1 (OutMsg.voice_join_confirmed ("p7") ("r1")) ::
      Output.bcast ("r1") (OutMsg.voice_participant_joined ("p7")) (some ("p7")) ::
      ([Output.sendTo 2 (OutMsg.voice_participant_joined ("p7"))]
      ++ Output.bcast ("r1") (OutMsg.voice_participant_count_changed 1) none ::
        [Output.sendTo 1 (OutMsg.voice_participant_count_changed 1),
         Output.sendTo 2 (OutMsg.voice_participant_count_changed 1)]) := by
  have h := (voice_join_sequence isOpenAll true ("ca") 1 0 ("p7") ("r1") baseState
    (by decide)).2.2.2
  rw [h]
  decide

/- ===== C7: voice_join then voice_leave roundtrip ===== -/

theorem countCalls_append (l1 l2 : List Output) :
    countCalls (l1 ++ l2) = countCalls l1 ++ countCalls l2 := by
  simp [countCalls, List.filterMap_append]

theorem countCalls_cons_sendTo (w : Nat) (msg : OutMsg) (l : List Output) :
    countCalls (Output.sendTo w msg :: l) = countCalls l := by
  simp [countCalls, List.filterMap_cons]

theorem countCalls_map_sendTo (l : List (String × WSClient)) (msg : OutMsg) :
    countCalls (l.map (fun e => Output.sendTo e.2.wsId msg)) = [] := by
  induction l with
  | nil => rfl
  | cons e rest ih => simp [countCalls, List.filterMap_cons]

theorem countCalls_broadcast (isOpen : Nat → Bool) (cs : List (String × WSClient))
    (rid : String) (msg : OutMsg) (excl : Option String) :
    countCalls (broadcastToRoom isOpen cs rid msg excl).2 = countTag msg := by
  rw [bcast_outs]
  cases msg <;> simp [countCalls, countTag, List.filterMap_cons]

/-- C7: starting from a room with an empty voice set, voice_join(room, p)
immediately followed by voice_leave(room, p) leaves the final voice count
at 0 (the voice set entry is pruned) and the combined trace carries
exactly two voice count changed broadcast calls, with counts 1 then 0. -/
theorem voice_join_leave_roundtrip (isOpen : Nat → Bool) (ha : Bool) (cid : String)
    (ws now : Nat) (pid rid : String) (s : ServerState)
    (hempty : (mapGet s.voiceParticipants rid).getD [] = []) :
    voiceCount (handleMessage isOpen ha cid ws now (InMsg.voice_leave pid rid)
        (handleMessage isOpen ha cid ws now (InMsg.voice_join pid rid) s).1).1 rid = 0 ∧
    mapGet (handleMessage isOpen ha cid ws now (InMsg.voice_leave pid rid)
        (handleMessage isOpen ha cid ws now (InMsg.voice_join pid rid) s).1).1.voiceParticipants
      rid = none ∧
    countCalls ((handleMessage isOpen ha cid ws now (InMsg.voice_join pid rid) s).2
        ++ (handleMessage isOpen ha cid ws now (InMsg.voice_leave pid rid)
          (handleMessage isOpen ha cid ws now (InMsg.voice_join pid rid) s).1).2)
      = [1, 0] := by
  have hadd : setAdd ((mapGet s.voiceParticipants rid).getD []) pid = [pid] := by
    rw [hempty]
    rfl
  have h1 : (handleVoiceJoin isOpen ws pid rid s).1.voiceParticipants
      = mapSet s.voiceParticipants rid [pid] := by
    simp only [handleVoiceJoin]
    rw [hadd]
  have h2 : mapGet (handleMessage isOpen ha cid ws now (InMsg.voice_leave pid rid)
      (handleMessage isOpen ha cid ws now (InMsg.voice_join pid rid) s).1).1.voiceParticipants
      rid = none := by
    simp only [handleMessage, handleVoiceLeave]
    rw [h1, mapGet_mapSet_self]
    simp [setDel, mapGet_mapDel_self]
  refine ⟨?_, h2, ?_⟩
  · simp [voiceCount, h2]
  · rw [countCalls_append]
    have hjoin : countCalls (handleMessage isOpen ha cid ws now
        (InMsg.voice_join pid rid) s).2 = [1] := by
      simp only [handleMessage, handleVoiceJoin]
      rw [hadd, mapGet_mapSet_self]
      rw [countCalls_cons_sendTo, countCalls_append, countCalls_broadcast,
        countCalls_broadcast]
      rfl
    have hleave : countCalls (handleMessage isOpen ha cid ws now
        (InMsg.voice_leave pid rid)
        (handleMessage isOpen ha cid ws now (InMsg.voice_join pid rid) s).1).2
        = [0] := by
      simp only [handleMessage, handleVoiceLeave]
      rw [h1, mapGet_mapSet_self]
      simp only [setDel, List.filter_cons, bne_self_eq_false, Bool.false_eq_true,
        if_false, List.filter_nil, List.isEmpty_nil, if_true]
      rw [countCalls_append, countCalls_broadcast, countCalls_broadcast,
        mapGet_mapDel_self]
      rfl
    rw [hjoin, hleave]
    rfl

theorem voice_join_leave_roundtrip_witness :
    countCalls ((handleMessage isOpenAll true ("ca") 1 0 (InMsg.voice_join ("p7") ("r1"))
        baseState).2
      ++ (handleMessage isOpenAll true ("ca") 1 0 (InMsg.voice_leave ("p7") ("r1"))
        (handleMessage isOpenAll true ("ca") 1 0 (InMsg.voice_join ("p7") ("r1"))
          baseState).1).2) = [1, 0] :=
  (voice_join_leave_roundtrip isOpenAll true ("ca") 1 0 ("p7") ("r1") baseState
    (by decide)).2.2

/- ===== C10: leave_room does not touch voice state ===== -/

theorem sched_voice (rid : String) (ha : Bool) (now : Nat) (s : ServerState) :
    (checkAndScheduleRoomCleanup rid ha now s).voiceParticipants = s.voiceParticipants := by
  simp only [checkAndScheduleRoomCleanup]
  split <;> rfl

theorem sched_clients (rid : String) (ha : Bool) (now : Nat) (s : ServerState) :
    (checkAndScheduleRoomCleanup rid ha now s).clients = s.clients := by
  simp only [checkAndScheduleRoomCleanup]
  split <;> rfl

theorem sched_deleted (rid : String) (ha : Bool) (now : Nat) (s : ServerState) :
    (checkAndScheduleRoomCleanup rid ha now s).deletedRooms = s.deletedRooms := by
  simp only [checkAndScheduleRoomCleanup]
  split <;> rfl

theorem filterVoice_map_sendTo (l : List (String × WSClient)) (msg : OutMsg)
    (h : voiceMsg msg = false) :
    (l.map (fun e => Output.sendTo e.2.wsId msg)).filter outputIsVoice = [] := by
  induction l with
  | nil => rfl
  | cons e rest ih => simpa [List.filter_cons, outputIsVoice, h] using ih

theorem filterVoice_broadcast (isOpen : Nat → Bool) (cs : List (String × WSClient))
    (rid : String) (msg : OutMsg) (excl : Option String) (h : voiceMsg msg = false) :
    ((broadcastToRoom isOpen cs rid msg excl).2).filter outputIsVoice = [] := by
  rw [bcast_outs]
  rw [List.filter_cons]
  have hb : outputIsVoice (Output.bcast rid msg excl) = false := by
    simp [outputIsVoice, h]
  rw [hb]
  simp only [Bool.false_eq_true, if_false]
  exact filterVoice_map_sendTo _ _ h

/-- C10: processing a leave_room message leaves the voiceParticipants map
entirely unchanged and emits no voice related output (no voice broadcast
call, no voice send): voice membership is untouched by leave_room. -/
theorem leave_room_voice_frame (isOpen : Nat → Bool) (ha : Bool) (cid : String)
    (ws now : Nat) (pid rid : String) (s : ServerState) :
    (handleMessage isOpen ha cid ws now (InMsg.leave_room pid rid) s).1.voiceParticipants
      = s.voiceParticipants ∧
    ((handleMessage isOpen ha cid ws now (InMsg.leave_room pid rid) s).2).filter
      outputIsVoice = [] := by
  constructor
  · simp only [handleMessage]
    exact sched_voice rid ha now s
  · simp only [handleMessage]
    exact filterVoice_broadcast isOpen _ rid (OutMsg.participant_left pid) (some pid) rfl

/- ===== C4: voice cleanup on connection close ===== -/

theorem vb_append (l1 l2 : List Output) :
    voiceBcastMsgs (l1 ++ l2) = voiceBcastMsgs l1 ++ voiceBcastMsgs l2 := by
  simp [voiceBcastMsgs, List.filterMap_append]

theorem vb_map_sendTo (l : List (String × WSClient)) (msg : OutMsg) :
    voiceBcastMsgs (l.map (fun e => Output.sendTo e.2.wsId msg)) = [] := by
  induction l with
  | nil => rfl
  | cons e rest ih => simp [voiceBcastMsgs, List.filterMap_cons]

theorem vb_broadcast (isOpen : Nat → Bool) (cs : List (String × WSClient))
    (rid : String) (msg : OutMsg) (excl : Option String) :
    voiceBcastMsgs (broadcastToRoom isOpen cs rid msg excl).2 = vbTag msg := by
  rw [bcast_outs]
  have hmap := vb_map_sendTo (cs.filter (fun e => e.2.roomId == rid
      && !(some e.2.participantId == excl) && isOpen e.2.wsId)) msg
  rw [voiceBcastMsgs] at hmap ⊢
  rw [List.filterMap_cons]
  by_cases h : voiceMsg msg = true
  · simp [h, vbTag, hmap]
  · simp only [Bool.not_eq_true] at h
    simp [h, vbTag, hmap]

/-- C4 counterexample: at a concrete state where connection ca (participant
p7, in the voice set of room r1) closes, the close handler broadcasts
voice_participant_count_changed BEFORE voice_participant_left — not the
voiceLeave order (left before count) that the claim states. -/
theorem close_order_counterexample :
    voiceBcastMsgs (handleClose openOnly2 true ("ca") 0 voiceState).2 =
      [OutMsg.voice_participant_count_changed 0,
       OutMsg.voice_participant_left ("p7")] ∧
    voiceBcastMsgs (handleClose openOnly2 true ("ca") 0 voiceState).2 ≠
      [OutMsg.voice_participant_left ("p7"),
       OutMsg.voice_participant_count_changed 0] := by
  decide

theorem not_mem_setDel_self (xs : List String) (x : String) : x ∉ setDel xs x := by
  intro h
  simp [setDel, List.mem_filter] at h

/-- C4 amended: when a connection closes while its participant is in the
voice set of its room, the participant is removed from the voice set and
both broadcasts of the voice leave sequence fire, but in the order
voice_participant_count_changed first (carrying the updated count) and
voice_participant_left (excluding the leaver) second — the reverse of the
order used by the voice_leave message handler. -/
theorem close_voice_sequence (isOpen : Nat → Bool) (ha : Bool) (cid : String)
    (now : Nat) (s : ServerState) (c : WSClient) (vs : List String)
    (hc : mapGet s.clients cid = some c)
    (hv : mapGet s.voiceParticipants c.roomId = some vs)
    (hin : vs.contains c.participantId = true) :
    ((mapGet (handleClose isOpen ha cid now s).1.voiceParticipants c.roomId).getD
        []).contains c.participantId = false ∧
    voiceBcastMsgs (handleClose isOpen ha cid now s).2 =
      [OutMsg.voice_participant_count_changed (setDel vs c.participantId).length,
       OutMsg.voice_participant_left c.participantId] := by
  simp only [handleClose, hc, hv, hin, if_true]
  by_cases hE : (setDel vs c.participantId).isEmpty = true
  · have hlen : (setDel vs c.participantId).length = 0 := by
      rw [List.isEmpty_iff] at hE
      rw [hE]
      rfl
    simp only [hE, if_true]
    constructor
    · simp [sched_voice, mapGet_mapDel_self]
    · rw [vb_append, vb_append, vb_broadcast, vb_broadcast, vb_broadcast]
      simp [vbTag, voiceMsg, hlen, mapGet_mapDel_self]
  · simp only [hE, Bool.false_eq_true, if_false]
    constructor
    · simp [sched_voice, mapGet_mapSet_self, not_mem_setDel_self]
    · rw [vb_append, vb_append, vb_broadcast, vb_broadcast, vb_broadcast]
      simp [vbTag, voiceMsg, mapGet_mapSet_self]

theorem close_voice_sequence_witness :
    voiceBcastMsgs (handleClose openOnly2 true ("ca") 0 voiceState).2 =
      [OutMsg.voice_participant_count_changed (setDel ["p7"] ("p7")).length,
       OutMsg.voice_participant_left ("p7")] :=
  (close_voice_sequence openOnly2 true ("ca") 0 voiceState clientA (["p7"])
    (by decide) (by decide) (by decide)).2

/- ===== C8: a single eviction timer per room ===== -/

theorem keys_mapDel_nodup {a : Type} (m : List (String × a)) (k : String)
    (h : (m.map Prod.fst).Nodup) : ((mapDel m k).map Prod.fst).Nodup :=
  h.sublist (List.Sublist.map Prod.fst (List.filter_sublist m))

theorem mapDel_keys_ne {a : Type} (m : List (String × a)) (k : String)
    (e : String × a) (he : e ∈ mapDel m k) : e.1 ≠ k := by
  simp only [mapDel, List.mem_filter, bne_iff_ne, ne_eq] at he
  exact he.2

/-- C8: checkAndScheduleRoomCleanup first cancels and removes any existing
timer for the room; afterwards the timer map still has unique room keys
(at most one outstanding timer per room), all handles stay below the
counter, there is no timer for the room when a participant is active and
exactly one freshly armed timer ⟨nextTimerId, now⟩ when none is, and no
remaining timer entry for the room carries the previously armed handle. -/
theorem scheduleCheck_single_timer (rid : String) (ha : Bool) (now : Nat)
    (s : ServerState)
    (hkeys : (s.cleanupTimers.map Prod.fst).Nodup)
    (hbound : timerIdsBounded s) :
    ((checkAndScheduleRoomCleanup rid ha now s).cleanupTimers.map Prod.fst).Nodup ∧
    timerIdsBounded (checkAndScheduleRoomCleanup rid ha now s) ∧
    (ha = true →
      (checkAndScheduleRoomCleanup rid ha now s).cleanupTimers.filter
        (fun e => e.1 == rid) = []) ∧
    (ha = false →
      (checkAndScheduleRoomCleanup rid ha now s).cleanupTimers.filter
        (fun e => e.1 == rid) = [(rid, ⟨s.nextTimerId, now⟩)]) ∧
    (∀ t0, mapGet s.cleanupTimers rid = some t0 →
      ∀ e ∈ (checkAndScheduleRoomCleanup rid ha now s).cleanupTimers,
        e.1 = rid → e.2.tid ≠ t0.tid) := by
  cases ha with
  | true =>
    simp only [checkAndScheduleRoomCleanup, if_true]
    refine ⟨keys_mapDel_nodup _ _ hkeys, ?_, ?_, ?_, ?_⟩
    · intro e he
      exact hbound e (List.mem_of_mem_filter he)
    · intro _
      rw [List.filter_eq_nil_iff]
      intro e he
      simp [mapDel_keys_ne _ _ e he]
    · intro h
      cases h
    · intro t0 _ e he herid
      exact absurd herid (mapDel_keys_ne _ _ e he)
  | false =>
    have habs : mapGet (mapDel s.cleanupTimers rid) rid = none :=
      mapGet_mapDel_self _ _
    simp only [checkAndScheduleRoomCleanup, Bool.false_eq_true, if_false]
    rw [mapSet_of_absent _ habs]
    refine ⟨?_, ?_, ?_, ?_, ?_⟩
    · simp only [List.map_append, List.nodup_append]
      refine ⟨keys_mapDel_nodup _ _ hkeys, by simp, ?_⟩
      intro a hamem hamem2
      simp only [List.map_cons, List.map_nil, List.mem_singleton] at hamem2
      rcases List.mem_map.mp hamem with ⟨e, he, hek⟩
      exact mapDel_keys_ne _ _ e he (by rw [hek, hamem2])
    · intro e he
      rcases List.mem_append.mp he with h1 | h1
      · exact Nat.lt_succ_of_lt (hbound e (List.mem_of_mem_filter h1))
      · simp only [List.mem_singleton] at h1
        rw [h1]
        exact Nat.lt_succ_self _
    · intro h
      cases h
    · intro _
      rw [List.filter_append]
      have h1 : (mapDel s.cleanupTimers rid).filter (fun e => e.1 == rid) = [] := by
        rw [List.filter_eq_nil_iff]
        intro e he
        simp [mapDel_keys_ne _ _ e he]
      rw [h1]
      simp
    · intro t0 ht0 e he herid
      rcases List.mem_append.mp he with h1 | h1
      · exact absurd herid (mapDel_keys_ne _ _ e h1)
      · simp only [List.mem_singleton] at h1
        rw [h1]
        exact Ne.symm (Nat.ne_of_lt (hbound (rid, t0) (mapGet_mem ht0)))

theorem scheduleCheck_single_timer_witness :
    (checkAndScheduleRoomCleanup ("r1") false 500 timerState).cleanupTimers.filter
      (fun e => e.1 == ("r1")) = [(("r1"), ⟨1, 500⟩)] :=
  (scheduleCheck_single_timer ("r1") false 500 timerState (by decide)
    (by unfold timerIdsBounded; decide)).2.2.2.1 rfl

/- ===== C9: cleanup timer fires but persisted deletion fails ===== -/

/-- C9: when the armed cleanup timer for a room fires, finds the room
still empty, and the persisted deleteRoom call fails, the catch block
still clears the timer handle from the map, logs the error, and the
coordinator continues normally: the room is not recorded as deleted and
the registry and voice state are untouched. -/
theorem fire_delete_failure (tid : Nat) (rid : String) (s : ServerState)
    (t0 : TimerInfo) (ht : mapGet s.cleanupTimers rid = some t0)
    (htid : t0.tid = tid) :
    mapGet (fireCleanupTimer tid rid true false s).1.cleanupTimers rid = none ∧
    (fireCleanupTimer tid rid true false s).1.deletedRooms = s.deletedRooms ∧
    (fireCleanupTimer tid rid true false s).1.clients = s.clients ∧
    (fireCleanupTimer tid rid true false s).1.voiceParticipants = s.voiceParticipants ∧
    (fireCleanupTimer tid rid true false s).2 = [Output.logErr rid] := by
  have hbeq : (t0.tid == tid) = true := by simp [htid]
  simp only [fireCleanupTimer, ht, hbeq, if_true]
  simp [mapGet_mapDel_self]

theorem fire_delete_failure_witness :
    (fireCleanupTimer 0 ("r1") true false timerState).2 = [Output.logErr ("r1")] :=
  (fire_delete_failure 0 ("r1") timerState ⟨0, 100⟩ (by decide) rfl).2.2.2.2

/- ===== C2: a join cancels a pending eviction for good ===== -/

theorem dead_transfer {tid : Nat} {rid : String} {s1 s2 : ServerState}
    (ht : s2.cleanupTimers = s1.cleanupTimers) (hn : s1.nextTimerId ≤ s2.nextTimerId)
    (h : DeadTimer tid rid s1) : DeadTimer tid rid s2 :=
  ⟨lt_of_lt_of_le h.1 hn, fun t htg => h.2 t (by rw [← ht]; exact htg)⟩

theorem dead_transfer_del {tid : Nat} {rid : String} {s1 s2 : ServerState} (r2 : String)
    (ht : s2.cleanupTimers = mapDel s1.cleanupTimers r2)
    (hn : s1.nextTimerId ≤ s2.nextTimerId)
    (h : DeadTimer tid rid s1) : DeadTimer tid rid s2 := by
  refine ⟨lt_of_lt_of_le h.1 hn, ?_⟩
  intro t htg
  rw [ht] at htg
  by_cases hr : rid = r2
  · subst hr
    rw [mapGet_mapDel_self] at htg
    cases htg
  · rw [mapGet_mapDel_ne _ hr] at htg
    exact h.2 t htg

theorem dead_sched (r2 : String) (ha2 : Bool) (now : Nat) {tid : Nat} {rid : String}
    {s : ServerState} (h : DeadTimer tid rid s) :
    DeadTimer tid rid (checkAndScheduleRoomCleanup r2 ha2 now s) := by
  cases ha2 with
  | true =>
    simp only [checkAndScheduleRoomCleanup, if_true]
    exact dead_transfer_del r2 rfl (le_refl _) h
  | false =>
    simp only [checkAndScheduleRoomCleanup, Bool.false_eq_true, if_false]
    refine ⟨Nat.lt_succ_of_lt h.1, ?_⟩
    intro t htg
    by_cases hr : rid = r2
    · subst hr
      rw [mapGet_mapSet_self] at htg
      injection htg with ht2
      rw [← ht2]
      exact Ne.symm (Nat.ne_of_lt h.1)
    · rw [mapGet_mapSet_ne _ _ hr, mapGet_mapDel_ne _ hr] at htg
      exact h.2 t htg

theorem dead_fire (tid2 : Nat) (rid2 : String) (se dk : Bool) {tid : Nat}
    {rid : String} {s : ServerState} (h : DeadTimer tid rid s) :
    DeadTimer tid rid (fireCleanupTimer tid2 rid2 se dk s).1 := by
  simp only [fireCleanupTimer]
  cases hm : mapGet s.cleanupTimers rid2 with
  | none => exact h
  | some t =>
    by_cases hb : (t.tid == tid2) = true
    · simp only [hb, if_true]
      cases se with
      | true =>
        cases dk with
        | true => exact dead_transfer_del rid2 rfl (le_refl _) h
        | false => exact dead_transfer_del rid2 rfl (le_refl _) h
      | false => exact dead_transfer_del rid2 rfl (le_refl _) h
    · simp only [Bool.not_eq_true] at hb
      simp only [hb, Bool.false_eq_true, if_false]
      exact h

theorem dead_handleMessage (isOpen : Nat → Bool) (ha2 : Bool) (cid : String)
    (ws now : Nat) (m : InMsg) {tid : Nat} {rid : String} {s : ServerState}
    (h : DeadTimer tid rid s) :
    DeadTimer tid rid (handleMessage isOpen ha2 cid ws now m s).1 := by
  cases m with
  | join_room pid rid2 =>
    have hjr : DeadTimer tid rid (joinRegister isOpen cid ws pid rid2 s).1 := by
      have ht : (joinRegister isOpen cid ws pid rid2 s).1.cleanupTimers
          = mapDel s.cleanupTimers rid2 := by
        simp [joinRegister, cancelRoomCleanup]
      have hn : (joinRegister isOpen cid ws pid rid2 s).1.nextTimerId
          = s.nextTimerId := by
        simp [joinRegister, cancelRoomCleanup]
      exact dead_transfer_del rid2 ht (le_of_eq hn.symm) h
    simp only [handleMessage]
    cases hc : mapGet s.clients cid with
    | none => exact hjr
    | some c =>
      by_cases hcp : (c.participantId == pid) = true
      · simp only [hcp, if_true]
        exact h
      · simp only [Bool.not_eq_true] at hcp
        simp only [hcp, Bool.false_eq_true, if_false]
        exact hjr
  | voice_join pid rid2 =>
    simp only [handleMessage]
    have ht : (handleVoiceJoin isOpen ws pid rid2 s).1.cleanupTimers
        = s.cleanupTimers := by simp [handleVoiceJoin]
    have hn : (handleVoiceJoin isOpen ws pid rid2 s).1.nextTimerId
        = s.nextTimerId := by simp [handleVoiceJoin]
    exact dead_transfer ht (le_of_eq hn.symm) h
  | voice_leave pid rid2 =>
    simp only [handleMessage]
    have ht : (handleVoiceLeave isOpen pid rid2 s).1.cleanupTimers
        = s.cleanupTimers := by simp [handleVoiceLeave]
    have hn : (handleVoiceLeave isOpen pid rid2 s).1.nextTimerId
        = s.nextTimerId := by simp [handleVoiceLeave]
    exact dead_transfer ht (le_of_eq hn.symm) h
  | voice_signal k rid2 fP tP pl =>
    simp only [handleMessage]
    rw [handleVoiceSignal_state]
    exact h
  | voice_participant_muted pid rid2 isM =>
    simp only [handleMessage]
    exact dead_transfer rfl (le_refl _) h
  | play_sound sid pid rid2 =>
    simp only [handleMessage]
    exact dead_transfer rfl (le_refl _) h
  | leave_room pid rid2 =>
    simp only [handleMessage]
    exact dead_transfer rfl (le_refl _) (dead_sched rid2 ha2 now h)

theorem dead_handleClose (isOpen : Nat → Bool) (ha2 : Bool) (cid : String)
    (now : Nat) {tid : Nat} {rid : String} {s : ServerState}
    (h : DeadTimer tid rid s) :
    DeadTimer tid rid (handleClose isOpen ha2 cid now s).1 := by
  simp only [handleClose]
  cases hc : mapGet s.clients cid with
  | none => exact h
  | some c =>
    exact dead_transfer rfl (le_refl _)
      (dead_sched c.roomId ha2 now (dead_transfer rfl (le_refl _) h))

theorem dead_applyEvent (e : Event) {tid : Nat} {rid : String} {s : ServerState}
    (h : DeadTimer tid rid s) : DeadTimer tid rid (applyEvent e s) := by
  cases e with
  | msgEvt isOpen ha2 cid ws now m => exact dead_handleMessage isOpen ha2 cid ws now m h
  | closeEvt isOpen ha2 cid now => exact dead_handleClose isOpen ha2 cid now h
  | fireEvt tid2 rid2 se dk => exact dead_fire tid2 rid2 se dk h

theorem dead_applyEvents (es : List Event) {tid : Nat} {rid : String}
    {s : ServerState} (h : DeadTimer tid rid s) :
    DeadTimer tid rid (applyEvents es s) := by
  induction es generalizing s with
  | nil => exact h
  | cons e rest ih => exact ih (dead_applyEvent e h)

theorem fire_inert (tid : Nat) (rid : String) (se dk : Bool) (s : ServerState)
    (h : DeadTimer tid rid s) : fireCleanupTimer tid rid se dk s = (s, []) := by
  simp only [fireCleanupTimer]
  cases hm : mapGet s.cleanupTimers rid with
  | none => rfl
  | some t =>
    have hne : t.tid ≠ tid := h.2 t hm
    have hb : (t.tid == tid) = false := by simp [hne]
    simp [hb]

/-- C2: when room rid has a pending eviction timer t0 and a join_room for
rid arrives on a fresh connection before the timer fires, the timer is
cancelled (no timer remains armed for rid); after any further event
sequence the old timer callback is a no-op — it never deletes the room;
and a subsequent leave_room that finds no active participant arms a fresh
timer (a new handle) whose full 3 second grace interval starts at the
leave time. -/
theorem pending_eviction_cancelled_by_join
    (isOpen : Nat → Bool) (ha : Bool) (jcid : String) (jws now0 : Nat)
    (pid rid : String) (s : ServerState) (t0 : TimerInfo)
    (htimer : mapGet s.cleanupTimers rid = some t0)
    (hbound : timerIdsBounded s)
    (hfresh : mapGet s.clients jcid = none) :
    mapGet (handleMessage isOpen ha jcid jws now0 (InMsg.join_room pid rid) s).1.cleanupTimers
      rid = none ∧
    (∀ (es : List Event) (se dk : Bool),
      fireCleanupTimer t0.tid rid se dk
          (applyEvents es
            (handleMessage isOpen ha jcid jws now0 (InMsg.join_room pid rid) s).1)
        = (applyEvents es
            (handleMessage isOpen ha jcid jws now0 (InMsg.join_room pid rid) s).1, [])) ∧
    (∀ (es : List Event) (isOpen2 : Nat → Bool) (lcid : String) (lws now1 : Nat)
        (lpid : String),
      ∃ t1 : TimerInfo,
        mapGet (handleMessage isOpen2 false lcid lws now1 (InMsg.leave_room lpid rid)
            (applyEvents es
              (handleMessage isOpen ha jcid jws now0 (InMsg.join_room pid rid) s).1)).1.cleanupTimers
          rid = some t1 ∧
        t1.armTime = now1 ∧
        t1.armTime + CLEANUP_GRACE_MS = now1 + 3000 ∧
        t1.tid ≠ t0.tid) := by
  have hj : handleMessage isOpen ha jcid jws now0 (InMsg.join_room pid rid) s
      = joinRegister isOpen jcid jws pid rid s := by
    simp only [handleMessage, hfresh]
  have hjt : (joinRegister isOpen jcid jws pid rid s).1.cleanupTimers
      = mapDel s.cleanupTimers rid := by
    simp [joinRegister, cancelRoomCleanup]
  have hjn : (joinRegister isOpen jcid jws pid rid s).1.nextTimerId = s.nextTimerId := by
    simp [joinRegister, cancelRoomCleanup]
  have ha1 : mapGet (handleMessage isOpen ha jcid jws now0
      (InMsg.join_room pid rid) s).1.cleanupTimers rid = none := by
    rw [hj, hjt]
    exact mapGet_mapDel_self _ _
  have hdead1 : DeadTimer t0.tid rid
      (handleMessage isOpen ha jcid jws now0 (InMsg.join_room pid rid) s).1 := by
    constructor
    · rw [hj, hjn]
      exact hbound (rid, t0) (mapGet_mem htimer)
    · intro t htg
      rw [ha1] at htg
      cases htg
  refine ⟨ha1, ?_, ?_⟩
  · intro es se dk
    exact fire_inert _ _ se dk _ (dead_applyEvents es hdead1)
  · intro es isOpen2 lcid lws now1 lpid
    have hdead2 : DeadTimer t0.tid rid (applyEvents es
        (handleMessage isOpen ha jcid jws now0 (InMsg.join_room pid rid) s).1) :=
      dead_applyEvents es hdead1
    refine ⟨⟨(applyEvents es (handleMessage isOpen ha jcid jws now0
        (InMsg.join_room pid rid) s).1).nextTimerId, now1⟩, ?_, rfl, rfl, ?_⟩
    · simp only [handleMessage]
      simp only [checkAndScheduleRoomCleanup, Bool.false_eq_true, if_false]
      exact mapGet_mapSet_self _ _ _
    · exact Ne.symm (Nat.ne_of_lt hdead2.1)

theorem pending_eviction_cancelled_by_join_witness :
    mapGet (handleMessage isOpenAll true ("cc") 3 200 (InMsg.join_room ("p9") ("r1"))
      timerState).1.cleanupTimers ("r1") = none :=
  (pending_eviction_cancelled_by_join isOpenAll true ("cc") 3 200 ("p9") ("r1")
    timerState ⟨0, 100⟩ (by decide) (by unfold timerIdsBounded; decide) (by decide)).1

end Soundsync
